import Mathlib

/-!
Verification of the bellows typed binary record model.

The development shallowly embeds the declarative record catalog of
`src/bellows/types/struct.py` and the CLI helpers of
`src/bellows/cli/util.py`.  Record schemas are lists of typed fields; the
generic codec engine (encode / decode over a schema, little-endian integers,
fixed-length arrays, nested composites) is the engine the catalog classes
inherit.  That engine and the primitive field types live outside `src/`
(in the `zigpy` Struct base class and `bellows.types.basic` / `named`), so
they are modelled here from the spec, as noted on each such definition.

Bytes are modelled as natural numbers (an encoder only ever produces values
below 256); failure (`RangeError`, `TruncatedInput`, `LengthMismatch`,
`FormatError`) is modelled by `Option.none`.
-/

namespace Bellows

/-- Modelled from the spec: the closed set of field types of the record
model — fixed-width little-endian unsigned integers, fixed-length arrays,
and nested composite records.  Enumerations and bitmasks are integer
domains layered on a primitive width; with the pass-through decode policy
(unknown values are preserved, the behaviour documented for bitmasks and
chosen here for value enums) they are wire-identical to their base
integer type. -/
inductive FieldType where
  | uint : Nat → FieldType
  | fixedArray : Nat → FieldType → FieldType
  | composite : List FieldType → FieldType

/-- A runtime value of a field: an integer, an array of element values, or
a record (the list of its field values in declaration order). -/
inductive FieldValue where
  | uint : Nat → FieldValue
  | arr : List FieldValue → FieldValue
  | comp : List FieldValue → FieldValue

mutual
/-- Static encoded width in bytes of a field type; for a composite it is
the sum of the field widths (no field type is variable-length). -/
def FieldType.width : FieldType → Nat
  | .uint w => w
  | .fixedArray n t => n * t.width
  | .composite fs => widthList fs

/-- Sum of the encoded widths of a list of field types. -/
def widthList : List FieldType → Nat
  | [] => 0
  | t :: ts => t.width + widthList ts
end

/-- Little-endian encoding of `v` on `w` bytes (least significant first). -/
def encodeUint : Nat → Nat → List Nat
  | 0, _ => []
  | w + 1, v => v % 256 :: encodeUint w (v / 256)

/-- Little-endian decoding of a `w`-byte integer from the front of a
buffer, returning the value and the remaining bytes; `none` on truncation. -/
def decodeUint : Nat → List Nat → Option (Nat × List Nat)
  | 0, bs => some (0, bs)
  | _ + 1, [] => none
  | w + 1, b :: bs =>
    match decodeUint w bs with
    | none => none
    | some (v, r) => some (b + 256 * v, r)

mutual
/-- Modelled from the spec: the domain constraint of a field type — an
integer field holds `0 ≤ v < 2^(8·w)`, a fixed array holds exactly its
declared number of well-typed elements, a composite holds one well-typed
value per declared field. -/
def valid : FieldType → FieldValue → Bool
  | .uint w, .uint v => v < 256 ^ w
  | .fixedArray n t, .arr vs => vs.length == n && validElems t vs
  | .composite fs, .comp vs => validFields fs vs
  | _, _ => false

/-- All elements of a list are valid for the element type. -/
def validElems : FieldType → List FieldValue → Bool
  | _, [] => true
  | t, v :: vs => valid t v && validElems t vs

/-- Field values match the field types pairwise (same count, each valid). -/
def validFields : List FieldType → List FieldValue → Bool
  | [], [] => true
  | _ :: _, [] => false
  | [], _ :: _ => false
  | t :: ts, v :: vs => valid t v && validFields ts vs
end

mutual
/-- Modelled from the spec: generic encode.  Integers are encoded
little-endian and rejected (`RangeError`, here `none`) outside
`[0, 2^width - 1]`; a fixed array must hold exactly its declared element
count (`LengthMismatch` otherwise); a composite concatenates its fields'
encodings in declaration order with no padding. -/
def encodeField : FieldType → FieldValue → Option (List Nat)
  | .uint w, .uint v => if v < 256 ^ w then some (encodeUint w v) else none
  | .fixedArray n t, .arr vs => if vs.length = n then encodeElems t vs else none
  | .composite fs, .comp vs => encodeFields fs vs
  | _, _ => none

/-- Encode each element of an array with the element type and concatenate. -/
def encodeElems : FieldType → List FieldValue → Option (List Nat)
  | _, [] => some []
  | t, v :: vs =>
    match encodeField t v, encodeElems t vs with
    | some b, some rest => some (b ++ rest)
    | _, _ => none

/-- Encode the field values of a record against its field types, in
declaration order, and concatenate. -/
def encodeFields : List FieldType → List FieldValue → Option (List Nat)
  | [], [] => some []
  | _ :: _, [] => none
  | [], _ :: _ => none
  | t :: ts, v :: vs =>
    match encodeField t v, encodeFields ts vs with
    | some b, some rest => some (b ++ rest)
    | _, _ => none
end

mutual
/-- Modelled from the spec: generic decode.  Advances a cursor through the
buffer field by field (returning the decoded value and the remaining
bytes), recursing into nested composites, and fails (`TruncatedInput`,
here `none`) when the buffer runs out mid-field. -/
def decodeField : FieldType → List Nat → Option (FieldValue × List Nat)
  | .uint w, bs =>
    match decodeUint w bs with
    | none => none
    | some (v, r) => some (.uint v, r)
  | .fixedArray n t, bs =>
    match decodeElems n t bs with
    | none => none
    | some (vs, r) => some (.arr vs, r)
  | .composite fs, bs =>
    match decodeFields fs bs with
    | none => none
    | some (vs, r) => some (.comp vs, r)
termination_by t _ => (sizeOf t, 0)

/-- Decode `n` consecutive elements of the given element type. -/
def decodeElems : Nat → FieldType → List Nat → Option (List FieldValue × List Nat)
  | 0, _, bs => some ([], bs)
  | n + 1, t, bs =>
    match decodeField t bs with
    | none => none
    | some (v, r) =>
      match decodeElems n t r with
      | none => none
      | some (vs, r2) => some (v :: vs, r2)
termination_by n t _ => (sizeOf t, n + 1)

/-- Decode one value per field type, in declaration order. -/
def decodeFields : List FieldType → List Nat → Option (List FieldValue × List Nat)
  | [], bs => some ([], bs)
  | t :: ts, bs =>
    match decodeField t bs with
    | none => none
    | some (v, r) =>
      match decodeFields ts r with
      | none => none
      | some (vs, r2) => some (v :: vs, r2)
termination_by ts _ => (sizeOf ts, 0)
end

/-- A declared record type: a name and an ordered list of named, typed
fields (`FieldSpec`s), the declaration order being the wire order. -/
structure RecordType where
  name : String
  fields : List (String × FieldType)

/-- The field types of a record type, in declaration order. -/
def RecordType.fieldTypes (R : RecordType) : List FieldType :=
  R.fields.map Prod.snd

/-- The composite field type of a record type, used to encode and decode
its values through the generic engine. -/
def RecordType.type (R : RecordType) : FieldType :=
  .composite R.fieldTypes

/-- One unsigned byte (`basic.uint8_t`). -/
def uint8_t : FieldType := .uint 1

/-- Two-byte little-endian unsigned integer (`basic.uint16_t`). -/
def uint16_t : FieldType := .uint 2

/-- Four-byte little-endian unsigned integer (`basic.uint32_t`). -/
def uint32_t : FieldType := .uint 4

/-- Modelled from the spec: `named.EmberEUI64`, the fixed 8-byte hardware
address (an array of uint8 with array-of-uint8 semantics). -/
def EmberEUI64 : FieldType := .fixedArray 8 uint8_t

/-- Modelled from the spec: `named.ExtendedPanId`, a fixed 8-byte opaque
array. -/
def ExtendedPanId : FieldType := .fixedArray 8 uint8_t

/-- Modelled from the spec: `named.EmberKeyData`, fixed 16-byte key
material. -/
def EmberKeyData : FieldType := .fixedArray 16 uint8_t

/-- Modelled from the spec: `named.EmberPanId`, the short 2-byte network
identifier. -/
def EmberPanId : FieldType := uint16_t

/-- Modelled from the spec: `named.EmberNodeId`, a two byte network id
(per the comments in `struct.py`). -/
def EmberNodeId : FieldType := uint16_t

/-- Modelled from the spec: `named.EmberMulticastId`, a 2-byte multicast
group id. -/
def EmberMulticastId : FieldType := uint16_t

/-- Modelled from the spec: `named.Bool`, boolean-as-byte. -/
def Bool8 : FieldType := uint8_t

/-- Modelled from the spec: a value enumeration layered on one byte
(pass-through decode policy, hence wire-identical to uint8). -/
def enum8 : FieldType := uint8_t

/-- Modelled from the spec: a value enumeration layered on four bytes. -/
def enum32 : FieldType := uint32_t

/-- Modelled from the spec: a bit-flag set layered on two bytes; unknown
bits are preserved, not rejected. -/
def bitmap16 : FieldType := uint16_t

/-- Modelled from the spec: a bit-flag set layered on four bytes. -/
def bitmap32 : FieldType := uint32_t

/-- Network parameters record (`struct.py`). -/
def EmberNetworkParameters : RecordType :=
  ⟨"EmberNetworkParameters",
   [("extendedPanId", ExtendedPanId),
    ("panId", EmberPanId),
    ("radioTxPower", uint8_t),
    ("radioChannel", uint8_t),
    ("joinMethod", enum8),
    ("nwkManagerId", EmberNodeId),
    ("nwkUpdateId", uint8_t),
    ("channels", bitmap32)]⟩

/-- ZigBee network descriptor record (`struct.py`). -/
def EmberZigbeeNetwork : RecordType :=
  ⟨"EmberZigbeeNetwork",
   [("channel", uint8_t),
    ("panId", EmberPanId),
    ("extendedPanId", ExtendedPanId),
    ("allowingJoin", Bool8),
    ("stackProfile", uint8_t),
    ("nwkUpdateId", uint8_t)]⟩

/-- APS frame header record (`struct.py`). -/
def EmberApsFrame : RecordType :=
  ⟨"EmberApsFrame",
   [("profileId", uint16_t),
    ("clusterId", uint16_t),
    ("sourceEndpoint", uint8_t),
    ("destinationEndpoint", uint8_t),
    ("options", bitmap16),
    ("groupId", uint16_t),
    ("sequence", uint8_t)]⟩

/-- Binding table entry record (`struct.py`). -/
def EmberBindingTableEntry : RecordType :=
  ⟨"EmberBindingTableEntry",
   [("type", enum8),
    ("local", uint8_t),
    ("clusterId", uint16_t),
    ("remote", uint8_t),
    ("identifier", EmberEUI64),
    ("networkIndex", uint8_t)]⟩

/-- Multicast table entry record (`struct.py`). -/
def EmberMulticastTableEntry : RecordType :=
  ⟨"EmberMulticastTableEntry",
   [("multicastId", EmberMulticastId),
    ("endpoint", uint8_t),
    ("networkIndex", uint8_t)]⟩

/-- Transient key record (`struct.py`). -/
def EmberTransientKeyData : RecordType :=
  ⟨"EmberTransientKeyData",
   [("eui64", EmberEUI64),
    ("keyData", EmberKeyData),
    ("incomingFrameCounter", uint32_t),
    ("countdownTimerMs", uint32_t)]⟩

/-- AES-MMO hash context record (`struct.py`), with its fixed 16-byte
result array. -/
def EmberAesMmoHashContext : RecordType :=
  ⟨"EmberAesMmoHashContext",
   [("result", .fixedArray 16 uint8_t),
    ("length", uint32_t)]⟩

/-- Neighbor table entry record (`struct.py`). -/
def EmberNeighborTableEntry : RecordType :=
  ⟨"EmberNeighborTableEntry",
   [("shortId", EmberNodeId),
    ("averageLqi", uint8_t),
    ("inCost", uint8_t),
    ("outCost", uint8_t),
    ("age", uint8_t),
    ("longId", EmberEUI64)]⟩

/-- Route table entry record (`struct.py`). -/
def EmberRouteTableEntry : RecordType :=
  ⟨"EmberRouteTableEntry",
   [("destination", EmberNodeId),
    ("nextHop", uint16_t),
    ("status", uint8_t),
    ("age", uint8_t),
    ("concentratorType", uint8_t),
    ("routeRecordState", uint8_t)]⟩

/-- Initial security state record (`struct.py`). -/
def EmberInitialSecurityState : RecordType :=
  ⟨"EmberInitialSecurityState",
   [("bitmask", bitmap16),
    ("preconfiguredKey", EmberKeyData),
    ("networkKey", EmberKeyData),
    ("networkKeySequenceNumber", uint8_t),
    ("preconfiguredTrustCenterEui64", EmberEUI64)]⟩

/-- Current security state record (`struct.py`). -/
def EmberCurrentSecurityState : RecordType :=
  ⟨"EmberCurrentSecurityState",
   [("bitmask", bitmap16),
    ("trustCenterLongAddress", EmberEUI64)]⟩

/-- ZLL security algorithm data record (`struct.py`). -/
def EmberZllSecurityAlgorithmData : RecordType :=
  ⟨"EmberZllSecurityAlgorithmData",
   [("transactionId", uint32_t),
    ("responseId", uint32_t),
    ("bitmask", uint16_t)]⟩

/-- ZLL network record (`struct.py`): nests the ZigBee network descriptor
and the ZLL security algorithm data as composite fields. -/
def EmberZllNetwork : RecordType :=
  ⟨"EmberZllNetwork",
   [("zigbeeNetwork", EmberZigbeeNetwork.type),
    ("securityAlgorithm", EmberZllSecurityAlgorithmData.type),
    ("eui64", EmberEUI64),
    ("nodeId", EmberNodeId),
    ("state", bitmap16),
    ("nodeType", enum8),
    ("numberSubDevices", uint8_t),
    ("totalGroupIdentifiers", uint8_t),
    ("rssiCorrection", uint8_t)]⟩

/-- ZLL initial security state record (`struct.py`). -/
def EmberZllInitialSecurityState : RecordType :=
  ⟨"EmberZllInitialSecurityState",
   [("bitmask", uint32_t),
    ("keyIndex", enum8),
    ("encryptionKey", EmberKeyData),
    ("preconfiguredKey", EmberKeyData)]⟩

/-- ZLL device info record (`struct.py`). -/
def EmberZllDeviceInfoRecord : RecordType :=
  ⟨"EmberZllDeviceInfoRecord",
   [("ieeeAddress", EmberEUI64),
    ("endpointId", uint8_t),
    ("profileId", uint16_t),
    ("deviceId", uint16_t),
    ("version", uint8_t),
    ("groupIdCount", uint8_t)]⟩

/-- ZLL address assignment record (`struct.py`). -/
def EmberZllAddressAssignment : RecordType :=
  ⟨"EmberZllAddressAssignment",
   [("nodeId", EmberNodeId),
    ("freeNodeIdMin", EmberNodeId),
    ("freeNodeIdMax", EmberNodeId),
    ("groupIdMin", EmberMulticastId),
    ("groupIdMax", EmberMulticastId),
    ("freeGroupIdMin", EmberMulticastId),
    ("freeGroupIdMax", EmberMulticastId)]⟩

/-- Token data record (`struct.py`): a 4-byte size and a single data
byte — `data` is `basic.uint8_t`, not a variable-length payload. -/
def EmberTokenData : RecordType :=
  ⟨"EmberTokenData",
   [("size", uint32_t),
    ("data", uint8_t)]⟩

/-- Token info record (`struct.py`). -/
def EmberTokenInfo : RecordType :=
  ⟨"EmberTokenInfo",
   [("nvm3Key", enum32),
    ("isCnt", Bool8),
    ("isIdx", Bool8),
    ("size", uint8_t),
    ("arraySize", uint8_t)]⟩

/-- ZLL stack data token record (`struct.py`). -/
def EmberTokTypeStackZllData : RecordType :=
  ⟨"EmberTokTypeStackZllData",
   [("bitmask", uint32_t),
    ("freeNodeIdMin", uint16_t),
    ("freeNodeIdMax", uint16_t),
    ("myGroupIdMin", uint16_t),
    ("freeGroupIdMin", uint16_t),
    ("freeGroupIdMax", uint16_t),
    ("rssiCorrection", uint8_t)]⟩

/-- ZLL stack security token record (`struct.py`). -/
def EmberTokTypeStackZllSecurity : RecordType :=
  ⟨"EmberTokTypeStackZllSecurity",
   [("bitmask", uint32_t),
    ("keyIndex", uint8_t),
    ("encryptionKey", EmberKeyData),
    ("preconfiguredKey", EmberKeyData)]⟩

/-- GP address record (`struct.py`). -/
def EmberGpAddress : RecordType :=
  ⟨"EmberGpAddress",
   [("gpdIeeeAddress", EmberEUI64),
    ("sourceId", uint32_t),
    ("applicationId", uint8_t),
    ("endpoint", uint8_t)]⟩

/-- NV3 stack trust center token record (`struct.py`). -/
def NV3StackTrustCenterToken : RecordType :=
  ⟨"NV3StackTrustCenterToken",
   [("mode", uint16_t),
    ("eui64", EmberEUI64),
    ("key", EmberKeyData)]⟩

/-- The declared record catalog of `src/bellows/types/struct.py`, in
source order. -/
def catalog : List RecordType :=
  [EmberNetworkParameters, EmberZigbeeNetwork, EmberApsFrame,
   EmberBindingTableEntry, EmberMulticastTableEntry, EmberTransientKeyData,
   EmberAesMmoHashContext, EmberNeighborTableEntry, EmberRouteTableEntry,
   EmberInitialSecurityState, EmberCurrentSecurityState,
   EmberZllSecurityAlgorithmData, EmberZllNetwork,
   EmberZllInitialSecurityState, EmberZllDeviceInfoRecord,
   EmberZllAddressAssignment, EmberTokenData, EmberTokenInfo,
   EmberTokTypeStackZllData, EmberTokTypeStackZllSecurity, EmberGpAddress,
   NV3StackTrustCenterToken]

/-- Loop of `channel_mask` (`cli/util.py`): fold over the channels,
failing (`RangeError`, here `none`) on the first channel outside
`[11, 26]`, otherwise OR-ing `1 <<< channel` into the accumulator. -/
def channelMaskGo (mask : Nat) : List Nat → Option Nat
  | [] => some mask
  | c :: cs =>
    if 11 ≤ c ∧ c ≤ 26 then channelMaskGo (mask ||| (1 <<< c)) cs else none

/-- `channel_mask(channels)` of `cli/util.py`: build a channel bitmask,
validating every channel lies in `[11, 26]`. -/
def channel_mask (channels : List Nat) : Option Nat :=
  channelMaskGo 0 channels

/-- Value of a single hexadecimal digit, `none` for a non-hex character. -/
def hexDigitVal (c : Char) : Option Nat :=
  if '0' ≤ c ∧ c ≤ '9' then some (c.toNat - '0'.toNat)
  else if 'a' ≤ c ∧ c ≤ 'f' then some (c.toNat - 'a'.toNat + 10)
  else if 'A' ≤ c ∧ c ≤ 'F' then some (c.toNat - 'A'.toNat + 10)
  else none

/-- Accumulating loop of the hexadecimal integer parse. -/
def parseHexGo (acc : Nat) : List Char → Option Nat
  | [] => some acc
  | c :: cs =>
    match hexDigitVal c with
    | none => none
    | some d => parseHexGo (acc * 16 + d) cs

/-- Modelled from the spec: `basic.uint8_t(x, 16)` as used by
`parse_epan` — parse a nonempty string of hexadecimal digits into an
integer, `none` on the empty string or a non-hex character. -/
def parseHexNat : List Char → Option Nat
  | [] => none
  | cs => parseHexGo 0 cs

/-- Split a character list on the `:` separator (the `split(":")` of the
source helpers). -/
def splitColon : List Char → List (List Char)
  | [] => [[]]
  | c :: cs =>
    if c = ':' then [] :: splitColon cs
    else
      match splitColon cs with
      | [] => [[c]]
      | g :: gs => (c :: g) :: gs

/-- Parse every colon-separated group as a hexadecimal byte (the list
comprehension of `parse_epan`). -/
def parseHexBytes : List (List Char) → Option (List Nat)
  | [] => some []
  | g :: gs =>
    match parseHexNat g, parseHexBytes gs with
    | some v, some vs => some (v :: vs)
    | _, _ => none

/-- Modelled from the spec: constructing a `fixed_list(n, uint8_t)` value
(`bellows.types.basic.fixed_list`) from a sequence — a sequence whose
length differs from the declared length fails with `LengthMismatch`
(here `none`); there is no padding or truncation. -/
def fixed_list (n : Nat) (xs : List Nat) : Option (List Nat) :=
  if xs.length = n then some xs else none

/-- `parse_epan(epan)` of `cli/util.py`: split the user string on `:`,
parse each group as a hexadecimal byte, and build the fixed 8-byte
extended-PAN-ID array from the resulting sequence. -/
def parse_epan (epan : String) : Option (List Nat) :=
  match parseHexBytes (splitColon epan.toList) with
  | none => none
  | some xs => fixed_list 8 xs

/-- Parse a canonical two-hex-digit byte, `none` otherwise. -/
def parseHexPair : List Char → Option Nat
  | [c1, c2] =>
    (match hexDigitVal c1, hexDigitVal c2 with
     | some d1, some d2 => some (16 * d1 + d2)
     | _, _ => none)
  | _ => none

/-- Parse every colon-separated group as a canonical hex pair. -/
def parseHexPairs : List (List Char) → Option (List Nat)
  | [] => some []
  | g :: gs =>
    match parseHexPair g, parseHexPairs gs with
    | some v, some vs => some (v :: vs)
    | _, _ => none

/-- Modelled from the spec: `EmberEUI64.convert` — parse the canonical
colon-separated hex form of the 8-byte hardware address (most significant
byte first in display), failing with `FormatError` (here `none`) on a
wrong group count, a non-hex character, or a non-canonical group. -/
def EmberEUI64.convert (s : String) : Option (List Nat) :=
  match parseHexPairs (splitColon s.toList) with
  | none => none
  | some bs => fixed_list 8 bs

/-- Hexadecimal digit character for a value below 16. -/
def hexDigitChar (n : Nat) : Char :=
  if n < 10 then Char.ofNat (48 + n) else Char.ofNat (87 + n)

/-- Canonical two-digit hexadecimal rendering of one byte. -/
def hexPair (b : Nat) : List Char :=
  [hexDigitChar (b / 16 % 16), hexDigitChar (b % 16)]

/-- Modelled from the spec: formatting of the 8-byte hardware address —
the canonical colon-separated hex form. -/
def EmberEUI64.format (bs : List Nat) : String :=
  String.intercalate ":" (bs.map fun b => String.mk (hexPair b))

/-- `ZigbeeNodeParamType.convert` of `cli/util.py`: fail unless the value
contains a `:` and is exactly 23 characters long, then delegate to
`EmberEUI64.convert`. -/
def ZigbeeNodeParamType.convert (value : String) : Option (List Nat) :=
  if value.toList.contains ':' && value.length == 23 then
    EmberEUI64.convert value
  else none

/-- A concrete, in-range `EmberNetworkParameters` value used to witness
the catalog round-trip. -/
def sampleNetworkParameters : FieldValue :=
  .comp [.arr [.uint 0, .uint 1, .uint 2, .uint 3,
               .uint 4, .uint 5, .uint 6, .uint 7],
         .uint 0x1234, .uint 10, .uint 15, .uint 2, .uint 0xabcd, .uint 3,
         .uint 0x07fff800]

/-- A concrete, in-range `EmberApsFrame` value used to witness the
deterministic-length property. -/
def sampleApsFrame : FieldValue :=
  .comp [.uint 0x0104, .uint 0x0006, .uint 1, .uint 1, .uint 0x0040,
         .uint 0, .uint 7]

/-- A concrete, in-range `EmberZllNetwork` value (with nested
`EmberZigbeeNetwork` and `EmberZllSecurityAlgorithmData` records) used to
witness the nested-composite property. -/
def sampleZllNetwork : FieldValue :=
  .comp [.comp [.uint 11, .uint 0x1234,
                .arr [.uint 1, .uint 2, .uint 3, .uint 4,
                      .uint 5, .uint 6, .uint 7, .uint 8],
                .uint 1, .uint 2, .uint 5],
         .comp [.uint 0xdeadbeef, .uint 0x01020304, .uint 0x00ff],
         .arr [.uint 9, .uint 10, .uint 11, .uint 12,
               .uint 13, .uint 14, .uint 15, .uint 16],
         .uint 0xaabb, .uint 1, .uint 2, .uint 1, .uint 4, .uint 250]

/-- A `w`-byte little-endian encoding is exactly `w` bytes long. -/
theorem encodeUint_length (w v : Nat) : (encodeUint w v).length = w := by
  induction w generalizing v with
  | zero => rfl
  | succ w ih => simp [encodeUint, ih]

/-- Decoding the little-endian encoding of an in-range integer recovers
the integer and consumes exactly its encoding. -/
theorem decodeUint_encodeUint (w v : Nat) (h : v < 256 ^ w) (rest : List Nat) :
    decodeUint w (encodeUint w v ++ rest) = some (v, rest) := by
  induction w generalizing v with
  | zero =>
    have hv : v = 0 := by simpa using h
    subst hv; rfl
  | succ w ih =>
    have hv : v / 256 < 256 ^ w := by
      rw [Nat.div_lt_iff_lt_mul (by norm_num)]
      calc v < 256 ^ (w + 1) := h
        _ = 256 ^ w * 256 := by rw [pow_succ]
    simp [encodeUint, decodeUint, ih _ hv, Nat.mod_add_div]

/-- A successful `w`-byte integer decode consumes exactly `w` bytes. -/
theorem decodeUint_length (w : Nat) (bs : List Nat) (v : Nat) (r : List Nat)
    (h : decodeUint w bs = some (v, r)) : bs.length = w + r.length := by
  induction w generalizing bs v r with
  | zero =>
    simp only [decodeUint, Option.some.injEq, Prod.mk.injEq] at h
    simp [h.2]
  | succ w ih =>
    cases bs with
    | nil => simp [decodeUint] at h
    | cons b bs =>
      rw [decodeUint] at h
      cases hd : decodeUint w bs with
      | none => rw [hd] at h; cases h
      | some vr =>
        obtain ⟨v2, r2⟩ := vr
        rw [hd] at h
        simp only [Option.some.injEq, Prod.mk.injEq] at h
        obtain ⟨hv, hr⟩ := h
        have h3 := ih bs v2 r2 hd
        subst hr
        simp only [List.length_cons, h3]
        omega

mutual
/-- A successful field encoding has exactly the field type's width. -/
theorem encodeField_length (t : FieldType) (v : FieldValue) (bs : List Nat)
    (h : encodeField t v = some bs) : bs.length = t.width := by
  cases t with
  | uint w =>
    cases v with
    | uint x =>
      simp only [encodeField] at h
      split at h
      · injection h with h2
        simp only [FieldType.width]
        exact h2 ▸ encodeUint_length w x
      · cases h
    | arr vs => simp [encodeField] at h
    | comp vs => simp [encodeField] at h
  | fixedArray n t =>
    cases v with
    | uint x => simp [encodeField] at h
    | arr vs =>
      simp only [encodeField] at h
      split at h
      case isTrue hl =>
        have h2 := encodeElems_length t vs bs h
        simp only [FieldType.width]
        rw [h2, hl]
      case isFalse => cases h
    | comp vs => simp [encodeField] at h
  | composite fs =>
    cases v with
    | uint x => simp [encodeField] at h
    | arr vs => simp [encodeField] at h
    | comp vs =>
      simp only [encodeField] at h
      have h2 := encodeFields_length fs vs bs h
      simpa [FieldType.width] using h2
termination_by sizeOf v

/-- A successful element-list encoding has length count times element
width. -/
theorem encodeElems_length (t : FieldType) (vs : List FieldValue) (bs : List Nat)
    (h : encodeElems t vs = some bs) : bs.length = vs.length * t.width := by
  cases vs with
  | nil =>
    simp only [encodeElems, Option.some.injEq] at h
    simp [← h]
  | cons v vs =>
    simp only [encodeElems] at h
    cases hb : encodeField t v with
    | none => rw [hb] at h; simp at h
    | some b =>
      cases hr : encodeElems t vs with
      | none => rw [hb, hr] at h; simp at h
      | some rest =>
        rw [hb, hr] at h
        simp only [Option.some.injEq] at h
        have h1 := encodeField_length t v b hb
        have h2 := encodeElems_length t vs rest hr
        simp only [← h, List.length_append, List.length_cons, h1, h2, Nat.succ_mul]
        omega
termination_by sizeOf vs

/-- A successful record-field encoding has length the sum of the declared
field widths. -/
theorem encodeFields_length (ts : List FieldType) (vs : List FieldValue)
    (bs : List Nat) (h : encodeFields ts vs = some bs) :
    bs.length = widthList ts := by
  cases ts with
  | nil =>
    cases vs with
    | nil =>
      simp only [encodeFields, Option.some.injEq] at h
      simp [← h, widthList]
    | cons v vs => simp [encodeFields] at h
  | cons t ts =>
    cases vs with
    | nil => simp [encodeFields] at h
    | cons v vs =>
      simp only [encodeFields] at h
      cases hb : encodeField t v with
      | none => rw [hb] at h; simp at h
      | some b =>
        cases hr : encodeFields ts vs with
        | none => rw [hb, hr] at h; simp at h
        | some rest =>
          rw [hb, hr] at h
          simp only [Option.some.injEq] at h
          have h1 := encodeField_length t v b hb
          have h2 := encodeFields_length ts vs rest hr
          simp only [← h, List.length_append, widthList, h1, h2]
termination_by sizeOf vs
end

mutual
/-- Round-trip: decoding the encoding of a field value (prepended to any
remaining bytes) recovers the value and consumes exactly the encoding. -/
theorem decodeField_encodeField (t : FieldType) (v : FieldValue)
    (bs : List Nat) (h : encodeField t v = some bs) (rest : List Nat) :
    decodeField t (bs ++ rest) = some (v, rest) := by
  cases t with
  | uint w =>
    cases v with
    | uint x =>
      simp only [encodeField] at h
      split at h
      case isTrue hx =>
        injection h with h2
        subst h2
        simp [decodeField, decodeUint_encodeUint w x hx rest]
      case isFalse => cases h
    | arr vs => simp [encodeField] at h
    | comp vs => simp [encodeField] at h
  | fixedArray n t =>
    cases v with
    | uint x => simp [encodeField] at h
    | arr vs =>
      simp only [encodeField] at h
      split at h
      case isTrue hl =>
        have h2 := decodeElems_encodeElems t vs bs h rest
        rw [decodeField, ← hl, h2]
      case isFalse => cases h
    | comp vs => simp [encodeField] at h
  | composite fs =>
    cases v with
    | uint x => simp [encodeField] at h
    | arr vs => simp [encodeField] at h
    | comp vs =>
      simp only [encodeField] at h
      have h2 := decodeFields_encodeFields fs vs bs h rest
      rw [decodeField, h2]
termination_by sizeOf v

/-- Round-trip for a list of array elements. -/
theorem decodeElems_encodeElems (t : FieldType) (vs : List FieldValue)
    (bs : List Nat) (h : encodeElems t vs = some bs) (rest : List Nat) :
    decodeElems vs.length t (bs ++ rest) = some (vs, rest) := by
  cases vs with
  | nil =>
    simp only [encodeElems, Option.some.injEq] at h
    subst h
    simp [decodeElems]
  | cons v vs =>
    simp only [encodeElems] at h
    cases hb : encodeField t v with
    | none => rw [hb] at h; simp at h
    | some b =>
      cases hr : encodeElems t vs with
      | none => rw [hb, hr] at h; simp at h
      | some brest =>
        rw [hb, hr] at h
        simp only [Option.some.injEq] at h
        subst h
        have h1 := decodeField_encodeField t v b hb (brest ++ rest)
        have h2 := decodeElems_encodeElems t vs brest hr rest
        simp only [List.length_cons, List.append_assoc]
        rw [decodeElems, h1]
        simp [h2]
termination_by sizeOf vs

/-- Round-trip for the field values of a record. -/
theorem decodeFields_encodeFields (ts : List FieldType) (vs : List FieldValue)
    (bs : List Nat) (h : encodeFields ts vs = some bs) (rest : List Nat) :
    decodeFields ts (bs ++ rest) = some (vs, rest) := by
  cases ts with
  | nil =>
    cases vs with
    | nil =>
      simp only [encodeFields, Option.some.injEq] at h
      subst h
      simp [decodeFields]
    | cons v vs => simp [encodeFields] at h
  | cons t ts =>
    cases vs with
    | nil => simp [encodeFields] at h
    | cons v vs =>
      simp only [encodeFields] at h
      cases hb : encodeField t v with
      | none => rw [hb] at h; simp at h
      | some b =>
        cases hr : encodeFields ts vs with
        | none => rw [hb, hr] at h; simp at h
        | some brest =>
          rw [hb, hr] at h
          simp only [Option.some.injEq] at h
          subst h
          have h1 := decodeField_encodeField t v b hb (brest ++ rest)
          have h2 := decodeFields_encodeFields ts vs brest hr rest
          simp only [List.append_assoc]
          rw [decodeFields, h1]
          simp [h2]
termination_by sizeOf vs
end

mutual
/-- A successful field decode consumes exactly the field type's width. -/
theorem decodeField_length (t : FieldType) (bs : List Nat) (v : FieldValue)
    (r : List Nat) (h : decodeField t bs = some (v, r)) :
    bs.length = t.width + r.length := by
  cases t with
  | uint w =>
    rw [decodeField] at h
    cases hd : decodeUint w bs with
    | none => rw [hd] at h; cases h
    | some vr =>
      obtain ⟨x, r2⟩ := vr
      rw [hd] at h
      simp only [Option.some.injEq, Prod.mk.injEq] at h
      have h3 := decodeUint_length w bs x r2 hd
      simp only [FieldType.width, h3, h.2]
  | fixedArray n t =>
    rw [decodeField] at h
    cases hd : decodeElems n t bs with
    | none => rw [hd] at h; cases h
    | some vr =>
      obtain ⟨vs, r2⟩ := vr
      rw [hd] at h
      simp only [Option.some.injEq, Prod.mk.injEq] at h
      have h3 := decodeElems_length n t bs vs r2 hd
      simp only [FieldType.width, h3, h.2]
  | composite fs =>
    rw [decodeField] at h
    cases hd : decodeFields fs bs with
    | none => rw [hd] at h; cases h
    | some vr =>
      obtain ⟨vs, r2⟩ := vr
      rw [hd] at h
      simp only [Option.some.injEq, Prod.mk.injEq] at h
      have h3 := decodeFields_length fs bs vs r2 hd
      simp only [FieldType.width, h3, h.2]
termination_by (sizeOf t, 0)

/-- A successful decode of `n` array elements consumes exactly `n` times
the element width. -/
theorem decodeElems_length (n : Nat) (t : FieldType) (bs : List Nat)
    (vs : List FieldValue) (r : List Nat)
    (h : decodeElems n t bs = some (vs, r)) :
    bs.length = n * t.width + r.length := by
  cases n with
  | zero =>
    simp only [decodeElems, Option.some.injEq, Prod.mk.injEq] at h
    simp [h.2]
  | succ n =>
    cases hd : decodeField t bs with
    | none => simp [decodeElems, hd] at h
    | some vr =>
      obtain ⟨v, r1⟩ := vr
      cases hd2 : decodeElems n t r1 with
      | none => simp [decodeElems, hd, hd2] at h
      | some vr2 =>
        obtain ⟨vs2, r2⟩ := vr2
        simp only [decodeElems, hd, hd2, Option.some.injEq, Prod.mk.injEq] at h
        have h3 := decodeField_length t bs v r1 hd
        have h4 := decodeElems_length n t r1 vs2 r2 hd2
        simp only [h3, h4, h.2, Nat.succ_mul]
        omega
termination_by (sizeOf t, n + 1)

/-- A successful decode of a record's fields consumes exactly the sum of
the declared field widths. -/
theorem decodeFields_length (ts : List FieldType) (bs : List Nat)
    (vs : List FieldValue) (r : List Nat)
    (h : decodeFields ts bs = some (vs, r)) :
    bs.length = widthList ts + r.length := by
  cases ts with
  | nil =>
    simp only [decodeFields, Option.some.injEq, Prod.mk.injEq] at h
    simp [h.2, widthList]
  | cons t ts =>
    cases hd : decodeField t bs with
    | none => simp [decodeFields, hd] at h
    | some vr =>
      obtain ⟨v, r1⟩ := vr
      cases hd2 : decodeFields ts r1 with
      | none => simp [decodeFields, hd, hd2] at h
      | some vr2 =>
        obtain ⟨vs2, r2⟩ := vr2
        simp only [decodeFields, hd, hd2, Option.some.injEq, Prod.mk.injEq] at h
        have h3 := decodeField_length t bs v r1 hd
        have h4 := decodeFields_length ts r1 vs2 r2 hd2
        simp only [h3, h4, h.2, widthList]
        omega
termination_by (sizeOf ts, 0)
end

/-- Decoding a buffer strictly shorter than a field type's width fails
(`TruncatedInput`). -/
theorem decodeField_truncated (t : FieldType) (bs : List Nat)
    (h : bs.length < t.width) : decodeField t bs = none := by
  cases hd : decodeField t bs with
  | none => rfl
  | some vr =>
    obtain ⟨v, r⟩ := vr
    have h2 := decodeField_length t bs v r hd
    omega

mutual
/-- Every value satisfying its field type's constraints encodes
successfully. -/
theorem valid_encodeField (t : FieldType) (v : FieldValue)
    (h : valid t v = true) : ∃ bs, encodeField t v = some bs := by
  cases t with
  | uint w =>
    cases v with
    | uint x =>
      simp only [valid, decide_eq_true_eq] at h
      exact ⟨encodeUint w x, by simp [encodeField, h]⟩
    | arr vs => simp [valid] at h
    | comp vs => simp [valid] at h
  | fixedArray n t =>
    cases v with
    | uint x => simp [valid] at h
    | arr vs =>
      simp only [valid, Bool.and_eq_true, beq_iff_eq] at h
      obtain ⟨bs, hbs⟩ := valid_encodeElems t vs h.2
      exact ⟨bs, by simp [encodeField, h.1, hbs]⟩
    | comp vs => simp [valid] at h
  | composite fs =>
    cases v with
    | uint x => simp [valid] at h
    | arr vs => simp [valid] at h
    | comp vs =>
      obtain ⟨bs, hbs⟩ := valid_encodeFields fs vs (by simpa [valid] using h)
      exact ⟨bs, by simp [encodeField, hbs]⟩
termination_by sizeOf v

/-- Every list of valid elements encodes successfully. -/
theorem valid_encodeElems (t : FieldType) (vs : List FieldValue)
    (h : validElems t vs = true) : ∃ bs, encodeElems t vs = some bs := by
  cases vs with
  | nil => exact ⟨[], rfl⟩
  | cons v vs =>
    simp only [validElems, Bool.and_eq_true] at h
    obtain ⟨b, hb⟩ := valid_encodeField t v h.1
    obtain ⟨rest, hrest⟩ := valid_encodeElems t vs h.2
    exact ⟨b ++ rest, by rw [encodeElems, hb, hrest]⟩
termination_by sizeOf vs

/-- Every record value whose fields all satisfy their constraints encodes
successfully. -/
theorem valid_encodeFields (ts : List FieldType) (vs : List FieldValue)
    (h : validFields ts vs = true) : ∃ bs, encodeFields ts vs = some bs := by
  cases ts with
  | nil =>
    cases vs with
    | nil => exact ⟨[], rfl⟩
    | cons v vs => simp [validFields] at h
  | cons t ts =>
    cases vs with
    | nil => simp [validFields] at h
    | cons v vs =>
      simp only [validFields, Bool.and_eq_true] at h
      obtain ⟨b, hb⟩ := valid_encodeField t v h.1
      obtain ⟨rest, hrest⟩ := valid_encodeFields ts vs h.2
      exact ⟨b ++ rest, by rw [encodeFields, hb, hrest]⟩
termination_by sizeOf vs
end

/-- The channel-mask loop fails exactly when some channel of the
remaining list lies outside `[11, 26]`, whatever the accumulator. -/
theorem channelMaskGo_none_iff (cs : List Nat) :
    ∀ m, channelMaskGo m cs = none ↔ ∃ c ∈ cs, ¬(11 ≤ c ∧ c ≤ 26) := by
  induction cs with
  | nil => intro m; simp [channelMaskGo]
  | cons c cs ih =>
    intro m
    by_cases hc : 11 ≤ c ∧ c ≤ 26
    · rw [show channelMaskGo m (c :: cs) = channelMaskGo (m ||| 1 <<< c) cs
        from by simp [channelMaskGo, hc]]
      rw [ih]
      constructor
      · rintro ⟨x, hx, hpx⟩
        exact ⟨x, List.mem_cons_of_mem _ hx, hpx⟩
      · rintro ⟨x, hx, hpx⟩
        rcases List.mem_cons.mp hx with rfl | hx2
        · exact absurd hc hpx
        · exact ⟨x, hx2, hpx⟩
    · constructor
      · intro _
        exact ⟨c, List.mem_cons_self c cs, hc⟩
      · intro _
        simp [channelMaskGo, hc]

/-- When every remaining channel is in range, the channel-mask loop
computes the OR-fold of `1 <<< c` over the list into the accumulator. -/
theorem channelMaskGo_some (cs : List Nat) :
    ∀ m, (∀ c ∈ cs, 11 ≤ c ∧ c ≤ 26) →
      channelMaskGo m cs = some (cs.foldl (fun a c => a ||| (1 <<< c)) m) := by
  induction cs with
  | nil => intro m _; simp [channelMaskGo]
  | cons c cs ih =>
    intro m h
    have hc := h c (List.mem_cons_self c cs)
    rw [show channelMaskGo m (c :: cs) = channelMaskGo (m ||| 1 <<< c) cs
      from by simp [channelMaskGo, hc]]
    rw [List.foldl_cons]
    exact ih _ fun x hx => h x (List.mem_cons_of_mem _ hx)

/-- Any bit set in a successful channel-mask result was set in the
accumulator or lies at a position in `[11, 26]`. -/
theorem channelMaskGo_testBit (cs : List Nat) :
    ∀ acc m, channelMaskGo acc cs = some m → ∀ i, m.testBit i = true →
      (11 ≤ i ∧ i ≤ 26) ∨ acc.testBit i = true := by
  induction cs with
  | nil =>
    intro acc m h i hbit
    simp only [channelMaskGo, Option.some.injEq] at h
    subst h
    exact Or.inr hbit
  | cons c cs ih =>
    intro acc m h i hbit
    by_cases hc : 11 ≤ c ∧ c ≤ 26
    · rw [show channelMaskGo acc (c :: cs) = channelMaskGo (acc ||| 1 <<< c) cs
        from by simp [channelMaskGo, hc]] at h
      rcases ih _ _ h i hbit with hr | hr
      · exact Or.inl hr
      · rw [Nat.testBit_or] at hr
        simp only [Bool.or_eq_true] at hr
        rcases hr with h1 | h1
        · exact Or.inr h1
        · rw [Nat.one_shiftLeft] at h1
          have hci : c = i := by
            by_contra hne
            rw [Nat.testBit_two_pow_of_ne hne] at h1
            cases h1
          subst hci
          exact Or.inl hc
    · simp [channelMaskGo, hc] at h

/-- C6: `channel_mask` fails with a `RangeError` if and only if some
channel of its input lies outside `[11, 26]`; when every channel is in
range it returns the bitwise OR of `1 <<< channel` over the input;
channels `{11, 12, 26}` produce `(1<<<11) ||| (1<<<12) ||| (1<<<26)`,
while channel `10` or `27` causes failure. -/
theorem channel_mask_range :
    (∀ cs, channel_mask cs = none ↔ ∃ c ∈ cs, ¬(11 ≤ c ∧ c ≤ 26)) ∧
    (∀ cs, (∀ c ∈ cs, 11 ≤ c ∧ c ≤ 26) →
      channel_mask cs = some (cs.foldl (fun a c => a ||| (1 <<< c)) 0)) ∧
    channel_mask [11, 12, 26] =
      some (((1 <<< 11) ||| (1 <<< 12)) ||| (1 <<< 26)) ∧
    channel_mask [10] = none ∧ channel_mask [27] = none :=
  ⟨fun cs => channelMaskGo_none_iff cs 0,
   fun cs h => channelMaskGo_some cs 0 h,
   by decide, by decide, by decide⟩

/-- Witness for C6 at a concrete in-range input. -/
theorem channel_mask_range_witness :
    channel_mask [13, 14] =
      some ([13, 14].foldl (fun a c => a ||| (1 <<< c)) 0) :=
  channel_mask_range.2.1 [13, 14] (by decide)

/-- C9: a successful `channel_mask` result has set bits only at
positions 11 through 26 — hence it is below `2 ^ 27` — and the empty
collection of channels yields mask 0. -/
theorem channel_mask_bits (cs : List Nat) (m : Nat)
    (h : channel_mask cs = some m) :
    m < 2 ^ 27 ∧ (∀ i, m.testBit i = true → 11 ≤ i ∧ i ≤ 26) ∧
      channel_mask [] = some 0 := by
  have hb : ∀ i, m.testBit i = true → 11 ≤ i ∧ i ≤ 26 := by
    intro i hbit
    rcases channelMaskGo_testBit cs 0 m h i hbit with hr | hr
    · exact hr
    · rw [Nat.zero_testBit] at hr; cases hr
  refine ⟨?_, hb, rfl⟩
  refine Nat.lt_pow_two_of_testBit m fun i hi => ?_
  cases hbit : m.testBit i with
  | false => rfl
  | true =>
    have h2 := hb i hbit
    omega

/-- Witness for C9 at the concrete input `[11]`. -/
theorem channel_mask_bits_witness :
    channel_mask [11] = some 2048 ∧ 2048 < 2 ^ 27 :=
  ⟨by decide, (channel_mask_bits [11] 2048 (by decide)).1⟩

/-- C7: constructing a fixed-length array value from a sequence with a
different element count than declared fails with `LengthMismatch` and a
successful construction returns exactly the given sequence (no padding or
truncation); in `parse_epan`, 7 or 9 colon-separated hex bytes fail while
exactly 8 bytes succeed. -/
theorem fixed_list_length_enforcement :
    (∀ n xs, fixed_list n xs = none ↔ xs.length ≠ n) ∧
    (∀ n xs ys, fixed_list n xs = some ys → ys = xs) ∧
    parse_epan "00:11:22:33:44:55:66:77" =
      some [0x00, 0x11, 0x22, 0x33, 0x44, 0x55, 0x66, 0x77] ∧
    parse_epan "00:11:22:33:44:55:66" = none ∧
    parse_epan "00:11:22:33:44:55:66:77:88" = none := by
  refine ⟨fun n xs => ?_, fun n xs ys h => ?_, by decide, by decide, by decide⟩
  · unfold fixed_list
    split <;> simp_all
  · unfold fixed_list at h
    split at h
    · injection h with h2
      exact h2.symm
    · cases h

/-- Witness for C7: a successful fixed-list construction at a concrete
sequence returns exactly that sequence. -/
theorem fixed_list_length_enforcement_witness :
    fixed_list 3 [1, 2, 3] = some [1, 2, 3] ∧ ([1, 2, 3] : List Nat) = [1, 2, 3] :=
  ⟨by decide, fixed_list_length_enforcement.2.1 3 [1, 2, 3] [1, 2, 3] (by decide)⟩

/-- C8: the hardware-address helper accepts the canonical colon-separated
hex form — "00:11:22:33:44:55:66:77" parses to the byte sequence
`[0x00, 0x11, 0x22, 0x33, 0x44, 0x55, 0x66, 0x77]` and re-formats to the
identical string — while an input string of 21 or 24 characters, or one
with an invalid separator, fails with `FormatError`. -/
theorem zigbeeNode_convert_roundtrip :
    ZigbeeNodeParamType.convert "00:11:22:33:44:55:66:77" =
      some [0x00, 0x11, 0x22, 0x33, 0x44, 0x55, 0x66, 0x77] ∧
    EmberEUI64.format [0x00, 0x11, 0x22, 0x33, 0x44, 0x55, 0x66, 0x77] =
      "00:11:22:33:44:55:66:77" ∧
    (∀ s : String, s.length = 21 ∨ s.length = 24 →
      ZigbeeNodeParamType.convert s = none) ∧
    ZigbeeNodeParamType.convert "00-11-22-33-44-55-66-77" = none := by
  refine ⟨by decide, by decide, fun s hs => ?_, by decide⟩
  rcases hs with h | h <;> simp [ZigbeeNodeParamType.convert, h]

/-- Witness for C8 at a concrete 21-character input. -/
theorem zigbeeNode_convert_roundtrip_witness :
    ZigbeeNodeParamType.convert "000000000000000000000" = none :=
  zigbeeNode_convert_roundtrip.2.2.1 "000000000000000000000"
    (Or.inl (by decide))

/-- C1: for every record type in the catalog and every record value whose
fields all satisfy their declared field-type constraints, the value
encodes successfully, decoding the encoding yields the equal value, and
the decode consumes exactly the length of the encoding (it leaves
precisely the appended remainder). -/
theorem catalog_roundtrip (R : RecordType) (_hR : R ∈ catalog)
    (v : FieldValue) (hv : valid R.type v = true) :
    ∃ bs, encodeField R.type v = some bs ∧
      ∀ rest, decodeField R.type (bs ++ rest) = some (v, rest) := by
  obtain ⟨bs, hbs⟩ := valid_encodeField R.type v hv
  exact ⟨bs, hbs, fun rest => decodeField_encodeField R.type v bs hbs rest⟩

/-- Witness for C1: the concrete `EmberNetworkParameters` sample value
round-trips. -/
theorem catalog_roundtrip_witness :
    EmberNetworkParameters ∈ catalog ∧
    valid EmberNetworkParameters.type sampleNetworkParameters = true ∧
    ∃ bs, encodeField EmberNetworkParameters.type sampleNetworkParameters
        = some bs ∧
      ∀ rest, decodeField EmberNetworkParameters.type (bs ++ rest) =
        some (sampleNetworkParameters, rest) :=
  ⟨by simp [catalog], by decide,
   catalog_roundtrip EmberNetworkParameters (by simp [catalog])
     sampleNetworkParameters (by decide)⟩

/-- C2: for every record type in the catalog, every successful encoding
has length equal to the static sum of the encoded widths of the declared
fields, so any two values of the same type encode to byte sequences of
the same length (no catalog type has a variable-length field). -/
theorem catalog_deterministic_length (R : RecordType) (_hR : R ∈ catalog) :
    (∀ v bs, encodeField R.type v = some bs →
      bs.length = widthList R.fieldTypes) ∧
    (∀ v1 v2 bs1 bs2, encodeField R.type v1 = some bs1 →
      encodeField R.type v2 = some bs2 → bs1.length = bs2.length) := by
  have hlen : ∀ v bs, encodeField R.type v = some bs →
      bs.length = widthList R.fieldTypes := by
    intro v bs h
    have h2 := encodeField_length R.type v bs h
    rw [h2]
    rfl
  exact ⟨hlen, fun v1 v2 bs1 bs2 h1 h2 => by
    rw [hlen v1 bs1 h1, hlen v2 bs2 h2]⟩

/-- Witness for C2: the concrete `EmberApsFrame` sample value encodes to
the 11-byte static width of its type. -/
theorem catalog_deterministic_length_witness :
    EmberApsFrame ∈ catalog ∧
    encodeField EmberApsFrame.type sampleApsFrame =
      some [4, 1, 6, 0, 1, 1, 64, 0, 0, 0, 7] ∧
    ([4, 1, 6, 0, 1, 1, 64, 0, 0, 0, 7] : List Nat).length =
      widthList EmberApsFrame.fieldTypes :=
  ⟨by simp [catalog], by decide,
   (catalog_deterministic_length EmberApsFrame (by simp [catalog])).1
     sampleApsFrame _ (by decide)⟩

/-- C3: encoding an `EmberZigbeeNetwork` record concatenates the field
encodings in declaration order — channel, panId, extendedPanId,
allowingJoin, stackProfile, nwkUpdateId — with no padding, and encodes
the multi-byte `panId` little-endian (least significant byte first). -/
theorem emberZigbeeNetwork_encode_layout
    (ch pan e0 e1 e2 e3 e4 e5 e6 e7 aj sp nu : Nat)
    (hch : ch < 256) (hpan : pan < 256 ^ 2) (he0 : e0 < 256) (he1 : e1 < 256)
    (he2 : e2 < 256) (he3 : e3 < 256) (he4 : e4 < 256) (he5 : e5 < 256)
    (he6 : e6 < 256) (he7 : e7 < 256) (haj : aj < 256) (hsp : sp < 256)
    (hnu : nu < 256) :
    encodeField EmberZigbeeNetwork.type
      (.comp [.uint ch, .uint pan,
              .arr [.uint e0, .uint e1, .uint e2, .uint e3,
                    .uint e4, .uint e5, .uint e6, .uint e7],
              .uint aj, .uint sp, .uint nu]) =
    some ([ch] ++ [pan % 256, pan / 256] ++
          [e0, e1, e2, e3, e4, e5, e6, e7] ++ [aj] ++ [sp] ++ [nu]) := by
  have hpan1 : pan < 65536 := by norm_num at hpan; exact hpan
  have hpan2 : pan / 256 < 256 := by omega
  simp [EmberZigbeeNetwork, RecordType.type, RecordType.fieldTypes,
        encodeField, encodeFields, encodeElems, encodeUint,
        uint8_t, uint16_t, EmberPanId, ExtendedPanId, Bool8,
        Nat.mod_eq_of_lt, hch, hpan, hpan1, he0, he1, he2, he3, he4, he5,
        he6, he7, haj, hsp, hnu, hpan2]

/-- Witness for C3 at concrete field values. -/
theorem emberZigbeeNetwork_encode_layout_witness :
    encodeField EmberZigbeeNetwork.type
      (.comp [.uint 11, .uint 0x1234,
              .arr [.uint 1, .uint 2, .uint 3, .uint 4,
                    .uint 5, .uint 6, .uint 7, .uint 8],
              .uint 1, .uint 2, .uint 5]) =
    some ([11] ++ [0x1234 % 256, 0x1234 / 256] ++
          [1, 2, 3, 4, 5, 6, 7, 8] ++ [1] ++ [2] ++ [5]) :=
  emberZigbeeNetwork_encode_layout 11 0x1234 1 2 3 4 5 6 7 8 1 2 5
    (by decide) (by decide) (by decide) (by decide) (by decide) (by decide)
    (by decide) (by decide) (by decide) (by decide) (by decide) (by decide)
    (by decide)

/-- C4: a record type containing nested composite fields round-trips
through encode and decode, and its encoded length equals the nested
record types' encoded lengths plus the widths of its seven remaining
fields: the case of `EmberZllNetwork`. -/
theorem emberZllNetwork_nested (v : FieldValue)
    (hv : valid EmberZllNetwork.type v = true) :
    ∃ bs, encodeField EmberZllNetwork.type v = some bs ∧
      (∀ rest, decodeField EmberZllNetwork.type (bs ++ rest) =
        some (v, rest)) ∧
      bs.length =
        FieldType.width EmberZigbeeNetwork.type +
        FieldType.width EmberZllSecurityAlgorithmData.type +
        (FieldType.width EmberEUI64 + FieldType.width EmberNodeId +
         FieldType.width bitmap16 + FieldType.width enum8 +
         FieldType.width uint8_t + FieldType.width uint8_t +
         FieldType.width uint8_t) := by
  obtain ⟨bs, hbs⟩ := valid_encodeField _ _ hv
  refine ⟨bs, hbs,
    fun rest => decodeField_encodeField _ _ _ hbs rest, ?_⟩
  have h2 := encodeField_length _ _ _ hbs
  rw [h2]
  decide

/-- Witness for C4: the concrete `EmberZllNetwork` sample value. -/
theorem emberZllNetwork_nested_witness :
    valid EmberZllNetwork.type sampleZllNetwork = true ∧
    ∃ bs, encodeField EmberZllNetwork.type sampleZllNetwork = some bs ∧
      (∀ rest, decodeField EmberZllNetwork.type (bs ++ rest) =
        some (sampleZllNetwork, rest)) ∧
      bs.length =
        FieldType.width EmberZigbeeNetwork.type +
        FieldType.width EmberZllSecurityAlgorithmData.type +
        (FieldType.width EmberEUI64 + FieldType.width EmberNodeId +
         FieldType.width bitmap16 + FieldType.width enum8 +
         FieldType.width uint8_t + FieldType.width uint8_t +
         FieldType.width uint8_t) :=
  ⟨by decide, emberZllNetwork_nested sampleZllNetwork (by decide)⟩

/-- C5: for every record type in the catalog and every buffer strictly
shorter than the type's required encoded length — at every truncation
point, not only at field boundaries — decoding fails with
`TruncatedInput` rather than returning a record. -/
theorem catalog_truncation (R : RecordType) (_hR : R ∈ catalog)
    (bs : List Nat) (h : bs.length < FieldType.width R.type) :
    decodeField R.type bs = none :=
  decodeField_truncated R.type bs h

/-- Witness for C5: a 5-byte buffer for the 10-byte
`EmberCurrentSecurityState` fails to decode. -/
theorem catalog_truncation_witness :
    EmberCurrentSecurityState ∈ catalog ∧
    ([0, 0, 0, 0, 0] : List Nat).length <
      FieldType.width EmberCurrentSecurityState.type ∧
    decodeField EmberCurrentSecurityState.type [0, 0, 0, 0, 0] = none :=
  ⟨by simp [catalog], by decide,
   catalog_truncation EmberCurrentSecurityState (by simp [catalog])
     [0, 0, 0, 0, 0] (by decide)⟩

/-- C10: the `data` field of `EmberTokenData` is a single unsigned byte,
not a variable-length payload: every valid value encodes to exactly 5
bytes — the 4-byte little-endian `size` followed by the one `data`
byte — whatever the value stored in the `size` field. -/
theorem emberTokenData_five_bytes (size data : Nat)
    (hs : size < 2 ^ 32) (hd : data < 2 ^ 8) :
    encodeField EmberTokenData.type (.comp [.uint size, .uint data]) =
      some [size % 256, size / 256 % 256, size / 256 / 256 % 256,
            size / 256 / 256 / 256 % 256, data] ∧
    (∀ bs, encodeField EmberTokenData.type (.comp [.uint size, .uint data])
      = some bs → bs.length = 5) := by
  have hs2 : size < 256 ^ 4 := by norm_num at hs ⊢; exact hs
  have hs3 : size < 4294967296 := by norm_num at hs; exact hs
  have hd2 : data < 256 := by norm_num at hd; exact hd
  constructor
  · simp [EmberTokenData, RecordType.type, RecordType.fieldTypes,
          encodeField, encodeFields, encodeUint, uint32_t, uint8_t,
          hs2, hs3, hd2, Nat.mod_eq_of_lt]
  · intro bs h
    have h2 := encodeField_length _ _ _ h
    rw [h2]
    decide

/-- Witness for C10 at a concrete size and data byte. -/
theorem emberTokenData_five_bytes_witness :
    encodeField EmberTokenData.type (.comp [.uint 0x01020304, .uint 0x55]) =
      some [0x01020304 % 256, 0x01020304 / 256 % 256,
            0x01020304 / 256 / 256 % 256, 0x01020304 / 256 / 256 / 256 % 256,
            0x55] :=
  (emberTokenData_five_bytes 0x01020304 0x55 (by decide) (by decide)).1

end Bellows
